import Mathlib

/-
Shallow embedding of `parrotty.py`, a BPF-based TTY activity logger.

The embedding models, faithfully to the Python source:
  * the ctypes `Event` structure and the semantics of reading its
    `c_char * n` fields (which yield the bytes up to the first NUL, as
    ctypes `.value` access does);
  * `printevent`, including CPython's `repr`/str rendering of `bytes`
    objects (the `b'...'` form with escapes) and Python list indexing
    with a possibly negative `c_int` index;
  * `calculateclockoffset` / `calibratetimefactory`, including the
    exact semantics of the Python comparison
    `wallclocktime > lastupdate + UPDATE_INTERVAL` where `lastupdate`
    is an int and `UPDATE_INTERVAL = 6e10` is a float: CPython promotes
    `lastupdate` to a correctly rounded IEEE-754 double, adds, rounds
    again, and then compares the int to the resulting double exactly.
    Both `6e10` and `1e6` are exactly representable doubles, and every
    double of magnitude at least `2 ^ 52` is an integer, so the whole
    computation is represented here on `Int` with an explicit
    round-to-nearest-even function `floatRound`;
  * the `handleevent` / `handleinterrupt` loop state, as a small
    transition system over atomic steps (the signal handlers only write
    the `running` flag, and the record callback checks the flag once,
    before decoding);
  * the two BPF probes, as functions from their kernel-supplied inputs
    (byte counts, buffer contents, helper success flags) to the
    optionally submitted event record.
-/

namespace Parrotty

/-! ## Python / ctypes semantics helpers -/

/-- Reading a `c_char * n` field of a ctypes `Structure` yields the bytes up
to the first NUL byte (the ctypes `.value` semantics), not the raw array. -/
def cCharValue (bs : List Nat) : List Nat := bs.takeWhile (fun b => b ≠ 0)

/-- Quote character chosen by CPython's `bytes.__repr__`: a single quote
(39), unless the bytes contain a single quote and no double quote, in which
case a double quote (34). -/
def pyReprQuote (bs : List Nat) : Nat :=
  if bs.contains 39 && !(bs.contains 34) then 34 else 39

/-- Lowercase hexadecimal digit character, as used by `bytes.__repr__`. -/
def hexDigitChar (n : Nat) : Char :=
  if n < 10 then Char.ofNat (48 + n) else Char.ofNat (87 + n)

/-- Escape of one byte inside CPython's `bytes.__repr__` with quote
character `q`: backslash-escape the quote and the backslash, render tab,
newline and carriage return as two-character escapes, render other
non-printable bytes as a lowercase hex escape, and keep printable bytes. -/
def pyEscapeByte (q : Nat) (b : Nat) : List Char :=
  if b = q || b = 92 then [Char.ofNat 92, Char.ofNat b]
  else if b = 9 then [Char.ofNat 92, Char.ofNat 116]
  else if b = 10 then [Char.ofNat 92, Char.ofNat 110]
  else if b = 13 then [Char.ofNat 92, Char.ofNat 114]
  else if b < 32 || 127 ≤ b then
    [Char.ofNat 92, Char.ofNat 120, hexDigitChar (b / 16), hexDigitChar (b % 16)]
  else [Char.ofNat b]

/-- CPython's `repr` of a `bytes` object, which is also what `str` and
f-string interpolation produce for `bytes`: a `b` prefix, a quote, the
escaped bytes, and the closing quote. -/
def pyReprBytes (bs : List Nat) : String :=
  let q := pyReprQuote bs
  String.mk ([Char.ofNat 98, Char.ofNat q] ++ (bs.map (pyEscapeByte q)).flatten ++ [Char.ofNat q])

/-- Python list indexing with a possibly negative index: a negative index
counts from the end; an index out of range raises `IndexError`, modelled as
`none`. -/
def pyIndex (xs : List String) (i : Int) : Option String :=
  let j : Int := if i < 0 then i + xs.length else i
  if j < 0 then none else xs[j.toNat]?

/-! ## The Event record and the formatter -/

def EVENT_TYPES : List String := ["OUTPUT", "INPUT"]

/-- The ctypes `Event` structure. `comm` and `buf` hold the raw bytes of
the fixed-size `c_char` arrays (16 and 4096 bytes in the source); `len` is
the `c_uint` byte count and `etype` the `c_int` event type. -/
structure Event where
  rawtime : Nat
  cgid : Nat
  inode : Nat
  pidtgid : Nat
  nsid : Nat
  comm : List Nat
  buf : List Nat
  len : Nat
  etype : Int
deriving DecidableEq

/-- High 32 bits of the combined pid/tgid value: `event.pidtgid >> 32`. -/
def pidOf (pidtgid : Nat) : Nat := pidtgid >>> 32

/-- Low 32 bits of the combined pid/tgid value:
`event.pidtgid & 0xFFFFFFFF`. -/
def tidOf (pidtgid : Nat) : Nat := pidtgid &&& 0xFFFFFFFF

/-- The bytes rendered on the payload line: `event.buf[:event.len]`, where
`event.buf` is the ctypes `c_char` field access (truncated at the first
NUL) and the slice keeps at most `len` of those bytes. -/
def renderedPayload (event : Event) : List Nat :=
  (cCharValue event.buf).take event.len

/-- The header line of `printevent`, for an already-resolved direction
string: the f-string of the source, with `comm` rendered the way an
f-string renders a `bytes` object. -/
def headerLine (event : Event) (direction : String) (currenttime : Int) : String :=
  "<" ++ direction ++
  " pid=" ++ toString (pidOf event.pidtgid) ++
  " tid=" ++ toString (tidOf event.pidtgid) ++
  " time=" ++ toString currenttime ++
  " rawtime=" ++ toString event.rawtime ++
  " cgid=" ++ toString event.cgid ++
  " inode=" ++ toString event.inode ++
  " pidtgid=" ++ toString event.pidtgid ++
  " nsid=" ++ toString event.nsid ++
  " comm=" ++ pyReprBytes (cCharValue event.comm) ++
  " len=" ++ toString event.len ++ ">"

/-- The two lines printed by `printevent`, or `none` when
`EVENT_TYPES[event.etype]` raises `IndexError` (in which case the error is
raised while the first f-string is being built, so nothing is printed). -/
def printevent (event : Event) (currenttime : Int) : Option (List String) :=
  match pyIndex EVENT_TYPES event.etype with
  | none => none
  | some direction =>
      some [headerLine event direction currenttime,
            pyReprBytes (renderedPayload event)]

/-- Direction string actually selected by `printevent`, defaulting to the
empty string on an out-of-range `etype`. -/
def directionOf (event : Event) : String :=
  (pyIndex EVENT_TYPES event.etype).getD ""

/-! ## Clock calibration -/

/-- The mutable closure state of `calibratetimefactory`: the clock offset
and the wall-clock time of the last calibration. -/
structure CalState where
  clockoffset : Int
  lastupdate : Int
deriving DecidableEq

/-- Sampling both clocks: returns `(wallclocktime - monotonictime,
wallclocktime)`.  The two sampled times are parameters here because the
embedding is pure. -/
def calculateclockoffset (wallclocktime monotonictime : Int) : Int × Int :=
  (wallclocktime - monotonictime, wallclocktime)

/-- The source constant `6e10` (a float, but exactly representable, so its
value is the integer below). -/
def UPDATE_INTERVAL : Int := 60000000000

/-- The source constant `1e6` (a float, but exactly representable). -/
def DRIFT_THRESHOLD : Int := 1000000

/-- Fuel-based base-2 logarithm, structurally recursive so that concrete
values reduce inside the kernel; it agrees with `Nat.log2` whenever the
fuel is at least the argument. -/
def log2fuel : Nat → Nat → Nat
  | 0, _ => 0
  | fuel + 1, n => if 2 ≤ n then log2fuel fuel (n / 2) + 1 else 0

/-- Round a natural number to the value of the nearest IEEE-754 double
(round-to-nearest, ties-to-even).  Every double of magnitude at least
`2 ^ 52` is an integer, and the doubles in `[2 ^ k, 2 ^ (k + 1))` for
`k ≥ 52` are exactly the multiples of `2 ^ (k - 52)`, so the result is
again a natural number. -/
def floatRoundNat (n : Nat) : Nat :=
  if n < 2 ^ 53 then n
  else
    let u := 2 ^ (log2fuel n n - 52)
    let q := n / u
    let r := n % u
    if 2 * r < u then q * u
    else if 2 * r > u then (q + 1) * u
    else if q % 2 = 0 then q * u else (q + 1) * u

/-- Round an integer to the value of the nearest IEEE-754 double (the
rounding is symmetric around zero). -/
def floatRound (i : Int) : Int :=
  if i < 0 then -(floatRoundNat i.natAbs : Nat) else (floatRoundNat i.toNat : Nat)

/-- Value of the Python expression `lastupdate + UPDATE_INTERVAL`:
`lastupdate` (an int) is promoted to a correctly rounded double, the
(exactly representable) constant `6e10` is added, and the sum is rounded
again; CPython then compares `wallclocktime > ...` exactly. -/
def updateDeadline (lastupdate : Int) : Int :=
  floatRound (floatRound lastupdate + UPDATE_INTERVAL)

/-- The recalibration condition of `calibratetime`:
`wallclocktime > lastupdate + UPDATE_INTERVAL or drift > DRIFT_THRESHOLD`,
where `drift = abs(wallclocktime - calibratedtime)` is an int and the
comparison with the float `1e6` is exact. -/
def triggersRecal (st : CalState) (rawtime : Nat) (wallclocktime : Int) : Bool :=
  decide (wallclocktime > updateDeadline st.lastupdate) ||
  decide (|wallclocktime - ((rawtime : Int) + st.clockoffset)| > DRIFT_THRESHOLD)

/-- One call of the closure returned by `calibratetimefactory`: computes
`calibratedtime = rawtime + clockoffset`, recalibrates the state when the
condition holds (with `freshwall` and `freshmono` the clock values read by
`calculateclockoffset` at that moment), and returns the calibrated time
computed with the old offset in either case. -/
def calibratetime (st : CalState) (rawtime : Nat)
    (wallclocktime freshwall freshmono : Int) : Int × CalState :=
  let calibratedtime : Int := (rawtime : Int) + st.clockoffset
  if triggersRecal st rawtime wallclocktime then
    let p := calculateclockoffset freshwall freshmono
    (calibratedtime, ⟨p.1, p.2⟩)
  else
    (calibratedtime, st)

/-- One event as seen by the calibrator: the monotonic capture time and the
wall-clock read for it, plus the clock values a recalibration would read. -/
structure CalEvent where
  rawtime : Nat
  wallclocktime : Int
  freshwall : Int
  freshmono : Int

/-- Processing a list of events through the calibrator, returning the
calibrated times in order together with the final state. -/
def runCalibrate (st : CalState) : List CalEvent → List Int × CalState
  | [] => ([], st)
  | ev :: evs =>
      let r := calibratetime st ev.rawtime ev.wallclocktime ev.freshwall ev.freshmono
      let k := runCalibrate r.2 evs
      (r.1 :: k.1, k.2)

/-! ## Lifecycle: the consumer callback and the signal handler -/

/-- A decoded record waiting to be printed, together with the wall-clock
value read for it and the clock values a recalibration would read. -/
structure Pending where
  event : Event
  wallclocktime : Int
  freshwall : Int
  freshmono : Int
deriving DecidableEq

/-- State of the main loop: the `running` flag written by
`handleinterrupt`, the calibration state, the record currently being
processed by `handleevent` (if any), and the lines printed so far. -/
structure LoopState where
  running : Bool
  cal : CalState
  pending : Option Pending
  out : List (List String)
deriving DecidableEq

/-- Atomic steps of the loop.  `handleevent` is split at its only
interruption-relevant point: `beginEvent` performs the `if running:` check
and the decode, and `finishEvent` performs calibration and printing — a
signal arriving between the two only writes the `running` flag, so a
record that has passed the check is still printed (cooperative
cancellation).  `signal` is `handleinterrupt` for SIGINT or SIGTERM. -/
inductive Action where
  | beginEvent : Event → Int → Int → Int → Action
  | finishEvent : Action
  | signal : Action

/-- Effect of one atomic step on the loop state. -/
def stepAction (s : LoopState) (a : Action) : LoopState :=
  match a with
  | .signal => { s with running := false }
  | .beginEvent e w fw fm =>
      if s.running then { s with pending := some ⟨e, w, fw, fm⟩ } else s
  | .finishEvent =>
      match s.pending with
      | none => s
      | some p =>
          let r := calibratetime s.cal p.event.rawtime p.wallclocktime p.freshwall p.freshmono
          match printevent p.event r.1 with
          | none => { s with cal := r.2, pending := none }
          | some lines => { s with cal := r.2, pending := none, out := s.out ++ [lines] }

/-- Running a sequence of atomic steps. -/
def runActions (s : LoopState) (acts : List Action) : LoopState :=
  acts.foldl stepAction s

/-- The whole `handleevent` callback run without an intervening signal:
check-and-decode followed immediately by calibrate-and-print. -/
def handleevent (s : LoopState) (e : Event) (w fw fm : Int) : LoopState :=
  stepAction (stepAction s (.beginEvent e w fw fm)) .finishEvent

/-! ## The BPF probes -/

def PAGE_SIZE : Nat := 4096

/-- Kernel enum values; only their (in)equalities matter to the probes. -/
def ITER_UBUF : Nat := 0

def ITER_IOVEC : Nat := 1

def WRITE : Nat := 1

/-- Inputs of `kprobe__tty_write` supplied by the kernel and by the BPF
helpers: the iterator kind and direction, whether the resolved user
pointer is NULL, the byte count, the bytes at the user buffer, whether
`bpf_probe_read_user` and `ringbuf_reserve` succeed, the identifier
fields, the command name, and the stale contents of the reserved
ring-buffer slot. -/
structure TtyWriteArgs where
  iter_type : Nat
  data_source : Nat
  bufNull : Bool
  count : Nat
  payload : List Nat
  readOk : Bool
  reserveOk : Bool
  rawtime : Nat
  cgid : Nat
  inode : Nat
  pidtgid : Nat
  nsid : Nat
  comm : List Nat
  stale : List Nat

/-- The `tty_write` kprobe: returns the submitted event record, or `none`
when the probe bails out or discards the reservation.  The write path
labels its events `INPUT` (bytes written toward the TTY by a process). -/
def kprobe__tty_write (a : TtyWriteArgs) : Option Event :=
  if a.iter_type ≠ ITER_IOVEC ∧ a.iter_type ≠ ITER_UBUF then none
  else if a.data_source ≠ WRITE then none
  else if a.bufNull ∨ a.count = 0 then none
  else if ¬ a.reserveOk then none
  else
    let size := if a.count < PAGE_SIZE - 1 then a.count else PAGE_SIZE - 1
    if ¬ a.readOk then none
    else
      let buf0 := a.payload.take size ++ a.stale.drop size
      let buf1 := if size < PAGE_SIZE then buf0.set size 0 else buf0
      some { rawtime := a.rawtime, cgid := a.cgid, inode := a.inode,
             pidtgid := a.pidtgid, nsid := a.nsid, comm := a.comm,
             buf := buf1, len := size, etype := 1 }

/-- Inputs of `kprobe__n_tty_receive_buf_common`: whether `cp` is NULL,
the `int` byte count, whether `tty->driver_data` resolves to a file and
that file's inode, the bytes at `cp`, helper success flags, the
identifier fields, the command name, and the stale slot contents. -/
structure ReceiveArgs where
  cpNull : Bool
  count : Int
  hasFile : Bool
  fileInode : Nat
  payload : List Nat
  readOk : Bool
  reserveOk : Bool
  rawtime : Nat
  cgid : Nat
  pidtgid : Nat
  nsid : Nat
  comm : List Nat
  stale : List Nat

/-- The `n_tty_receive_buf_common` kprobe: returns the submitted event
record, or `none` when the probe bails out or discards the reservation.
The `size` expression is computed in C `int` arithmetic, so it is an
`Int` here; `bpf_probe_read_kernel` takes its size as a `u32` checked
against the destination capacity, so a negative `size` (reinterpreted as
a value far above 4096) makes the read fail and the reservation is
discarded.  The receive path labels its events `OUTPUT` (bytes delivered
to the TTY for display). -/
def kprobe__n_tty_receive_buf_common (a : ReceiveArgs) : Option Event :=
  if a.cpNull then none
  else if ¬ a.reserveOk then none
  else
    let size : Int := if a.count < (PAGE_SIZE : Int) - 1 then a.count else (PAGE_SIZE : Int) - 1
    if size < 0 ∨ ¬ a.readOk then none
    else
      let sz := size.toNat
      let buf0 := a.payload.take sz ++ a.stale.drop sz
      let buf1 := buf0.set sz 0
      some { rawtime := a.rawtime, cgid := a.cgid,
             inode := if a.hasFile then a.fileInode else 0,
             pidtgid := a.pidtgid, nsid := a.nsid, comm := a.comm,
             buf := buf1, len := sz, etype := 0 }

/-! ## Supporting lemmas -/

theorem log2fuel_eq_log2 : ∀ fuel n, n ≤ fuel → log2fuel fuel n = Nat.log2 n := by
  intro fuel
  induction fuel with
  | zero =>
      intro n hn
      have hn0 : n = 0 := Nat.le_zero.mp hn
      subst hn0
      rw [Nat.log2]
      simp [log2fuel]
  | succ fuel ih =>
      intro n hn
      rw [Nat.log2]
      simp only [log2fuel, ge_iff_le]
      by_cases h2 : 2 ≤ n
      · rw [if_pos h2, if_pos h2, ih (n / 2) (by omega)]
      · rw [if_neg h2, if_neg h2]

theorem floatRoundNat_le_add (n : Nat) (h : n < 2 ^ 62) : floatRoundNat n ≤ n + 512 := by
  unfold floatRoundNat
  split
  · omega
  · next hn =>
    have hne : n ≠ 0 := by
      intro h0
      rw [h0] at hn
      exact hn (by norm_num)
    have hk : log2fuel n n = Nat.log2 n := log2fuel_eq_log2 n n le_rfl
    have hk61 : Nat.log2 n < 62 := by
      rw [Nat.log2_eq_log_two]
      exact Nat.log_lt_of_lt_pow hne h
    have hu : 2 ^ (log2fuel n n - 52) ≤ 512 := by
      rw [hk]
      calc 2 ^ (Nat.log2 n - 52) ≤ 2 ^ 9 := Nat.pow_le_pow_right (by norm_num) (by omega)
        _ = 512 := by norm_num
    have hqu : n / 2 ^ (log2fuel n n - 52) * 2 ^ (log2fuel n n - 52) ≤ n :=
      Nat.div_mul_le_self n _
    have hqu1 : (n / 2 ^ (log2fuel n n - 52) + 1) * 2 ^ (log2fuel n n - 52) ≤ n + 512 := by
      rw [Nat.succ_mul]
      omega
    dsimp only
    split
    · omega
    · split
      · exact hqu1
      · split
        · omega
        · exact hqu1

theorem updateDeadline_lt (last : Int) (h0 : 0 ≤ last) (h1 : last < 2 ^ 61) :
    updateDeadline last < last + 61 * 10 ^ 9 := by
  have hfl : floatRound last = (floatRoundNat last.toNat : Int) := by
    unfold floatRound
    rw [if_neg (by omega)]
  have hb1 : floatRoundNat last.toNat ≤ last.toNat + 512 :=
    floatRoundNat_le_add last.toNat (by omega)
  have hsum : ((floatRoundNat last.toNat : Int) + UPDATE_INTERVAL).toNat =
      floatRoundNat last.toNat + 60000000000 := by
    unfold UPDATE_INTERVAL
    omega
  have hb2 : floatRoundNat ((floatRoundNat last.toNat : Int) + UPDATE_INTERVAL).toNat ≤
      floatRoundNat last.toNat + 60000000000 + 512 := by
    rw [hsum]
    exact floatRoundNat_le_add _ (by omega)
  unfold updateDeadline
  rw [hfl]
  unfold floatRound
  rw [if_neg (by unfold UPDATE_INTERVAL; omega)]
  omega

theorem take_takeWhile_eq_take (p : Nat → Bool) :
    ∀ (n : Nat) (l : List Nat), (∀ b ∈ l.take n, p b = true) →
      (l.takeWhile p).take n = l.take n := by
  intro n
  induction n with
  | zero => intro l _; simp
  | succ m ih =>
      intro l hl
      cases l with
      | nil => simp
      | cons a t =>
          have ha : p a = true := hl a (by simp)
          have ht : ∀ b ∈ t.take m, p b = true := by
            intro b hb
            exact hl b (by simp [hb])
          simp [List.takeWhile_cons, ha, ih t ht]

theorem length_takeWhile_lt_of_mem (p : Nat → Bool) :
    ∀ (n : Nat) (l : List Nat) (b : Nat), b ∈ l.take n → p b = false →
      (l.takeWhile p).length < n := by
  intro n
  induction n with
  | zero => intro l b hb _; simp at hb
  | succ m ih =>
      intro l b hb hpb
      cases l with
      | nil => simp at hb
      | cons a t =>
          by_cases hpa : p a = true
          · have hba : b ≠ a := by
              intro hba
              rw [hba, hpa] at hpb
              exact Bool.true_eq_false.mp hpb
            have hbt : b ∈ t.take m := by
              rcases List.mem_cons.mp (by simpa using hb) with h | h
              · exact absurd h hba
              · exact h
            have := ih t b hbt hpb
            simp only [List.takeWhile_cons, hpa, if_pos, List.length_cons]
            omega
          · have hpa' : p a = false := Bool.not_eq_true _ |>.mp hpa
            simp [List.takeWhile_cons, hpa']

/-! ## C4: pid/tid extraction is lossless and invertible -/

/-- C4: for every 64-bit combined pid/tgid value, the extraction
`pid = combined >> 32`, `tid = combined & 0xFFFFFFFF` performed by
`printevent` is lossless and invertible: `(pid <<< 32) ||| tid` recovers
the combined value, and both halves fit in 32 bits. -/
theorem pidtgid_split_lossless (combined : Nat) (h : combined < 2 ^ 64) :
    (pidOf combined) <<< 32 ||| tidOf combined = combined ∧
    pidOf combined < 2 ^ 32 ∧ tidOf combined < 2 ^ 32 := by
  have hmask : (4294967295 : Nat) = 2 ^ 32 - 1 := by norm_num
  have htid : tidOf combined = combined % 2 ^ 32 := by
    rw [tidOf, hmask, Nat.and_pow_two_sub_one_eq_mod]
  refine ⟨?_, ?_, ?_⟩
  · apply Nat.eq_of_testBit_eq
    intro i
    rw [pidOf, htid]
    by_cases hi : i < 32
    · have hd1 : decide (32 ≤ i) = false := by simp; omega
      have hd2 : decide (i < 32) = true := by simp [hi]
      simp only [Nat.testBit_lor, Nat.testBit_shiftLeft, Nat.testBit_mod_two_pow,
                 hd1, hd2, Bool.false_and, Bool.false_or, Bool.true_and]
    · have h32 : 32 + (i - 32) = i := by omega
      have hd1 : decide (32 ≤ i) = true := by simp; omega
      have hd2 : decide (i < 32) = false := by simp [hi]
      simp only [Nat.testBit_lor, Nat.testBit_shiftLeft, Nat.testBit_shiftRight,
                 hd1, hd2, Bool.false_and, Bool.or_false, Bool.true_and,
                 Nat.testBit_mod_two_pow, h32]
  · rw [pidOf, Nat.shiftRight_eq_div_pow]
    have hsq : (2 : Nat) ^ 32 * 2 ^ 32 = 2 ^ 64 := by norm_num
    exact Nat.div_lt_of_lt_mul (by omega)
  · rw [htid]
    exact Nat.mod_lt _ (by norm_num)

theorem pidtgid_split_lossless_witness :
    18219251269639 < 2 ^ 64 ∧
    ((pidOf 18219251269639) <<< 32 ||| tidOf 18219251269639 = 18219251269639 ∧
     pidOf 18219251269639 < 2 ^ 32 ∧ tidOf 18219251269639 < 2 ^ 32) :=
  ⟨by norm_num, pidtgid_split_lossless 18219251269639 (by norm_num)⟩

/-! ## C5: calibrated times without recalibration -/

theorem runCalibrate_no_recal (st : CalState) :
    ∀ evs : List CalEvent,
      (∀ ev ∈ evs, triggersRecal st ev.rawtime ev.wallclocktime = false) →
      (runCalibrate st evs).1 = evs.map (fun ev => (ev.rawtime : Int) + st.clockoffset) := by
  intro evs
  induction evs with
  | nil => intro _; simp [runCalibrate]
  | cons ev evs ih =>
      intro hnorec
      have hev := hnorec ev (by simp)
      have hrest : ∀ e ∈ evs, triggersRecal st e.rawtime e.wallclocktime = false :=
        fun e he => hnorec e (by simp [he])
      simp [runCalibrate, calibratetime, hev, ih hrest]

/-- C5: for a sequence of events processed without any recalibration being
triggered, every calibrated time equals the event's monotonic capture time
plus the current offset, and for non-decreasing capture times the
calibrated times are non-decreasing. -/
theorem calibration_monotone (st : CalState) (evs : List CalEvent)
    (hnorec : ∀ ev ∈ evs, triggersRecal st ev.rawtime ev.wallclocktime = false)
    (hmono : List.Pairwise (fun a b => a.rawtime ≤ b.rawtime) evs) :
    (runCalibrate st evs).1 = evs.map (fun ev => (ev.rawtime : Int) + st.clockoffset) ∧
    List.Pairwise (· ≤ ·) (runCalibrate st evs).1 := by
  have hout := runCalibrate_no_recal st evs hnorec
  refine ⟨hout, ?_⟩
  rw [hout, List.pairwise_map]
  exact hmono.imp (fun hab => by omega)

theorem calibration_monotone_witness :
    (∀ ev ∈ [CalEvent.mk 5 105 0 0, CalEvent.mk 7 107 0 0],
        triggersRecal ⟨100, 0⟩ ev.rawtime ev.wallclocktime = false) ∧
    List.Pairwise (fun a b => a.rawtime ≤ b.rawtime)
        [CalEvent.mk 5 105 0 0, CalEvent.mk 7 107 0 0] ∧
    ((runCalibrate ⟨100, 0⟩ [CalEvent.mk 5 105 0 0, CalEvent.mk 7 107 0 0]).1 =
        [105, 107] ∧
     List.Pairwise (· ≤ ·)
        (runCalibrate ⟨100, 0⟩ [CalEvent.mk 5 105 0 0, CalEvent.mk 7 107 0 0]).1) := by
  refine ⟨by decide, by decide, ?_⟩
  have h := calibration_monotone ⟨100, 0⟩ [CalEvent.mk 5 105 0 0, CalEvent.mk 7 107 0 0]
    (by decide) (by decide)
  exact ⟨by rw [h.1]; decide, h.2⟩

/-! ## C6: recalibration is not retroactive -/

/-- C6: when recalibration is triggered by an event, the calibrated time
returned for that event is still computed with the previous offset, and
the new state replaces the offset and resets the last-calibrated
timestamp from one fresh pair of clock samples; moreover the calibrated
times already produced for a prefix of events are unchanged by whatever
events (and recalibrations) follow — only subsequent events see the new
state. -/
theorem recalibration_not_retroactive :
    (∀ st (raw : Nat) (wall fw fm : Int), triggersRecal st raw wall = true →
        calibratetime st raw wall fw fm = ((raw : Int) + st.clockoffset, ⟨fw - fm, fw⟩)) ∧
    (∀ st evs1 evs2,
        (runCalibrate st (evs1 ++ evs2)).1 =
          (runCalibrate st evs1).1 ++ (runCalibrate (runCalibrate st evs1).2 evs2).1) := by
  constructor
  · intro st raw wall fw fm htrig
    simp [calibratetime, htrig, calculateclockoffset]
  · intro st evs1 evs2
    induction evs1 generalizing st with
    | nil => simp [runCalibrate]
    | cons ev evs ih => simp [runCalibrate, ih]

theorem recalibration_not_retroactive_witness :
    (triggersRecal ⟨0, 0⟩ 0 70000000000 = true ∧
     calibratetime ⟨0, 0⟩ 0 70000000000 70000000100 100 = (0, ⟨70000000000, 70000000100⟩)) ∧
    (runCalibrate ⟨0, 0⟩ ([CalEvent.mk 0 70000000000 70000000100 100] ++
        [CalEvent.mk 1 70000000050 0 0])).1 =
      (runCalibrate ⟨0, 0⟩ [CalEvent.mk 0 70000000000 70000000100 100]).1 ++
      (runCalibrate (runCalibrate ⟨0, 0⟩ [CalEvent.mk 0 70000000000 70000000100 100]).2
        [CalEvent.mk 1 70000000050 0 0]).1 := by
  refine ⟨⟨by decide, ?_⟩, ?_⟩
  · exact recalibration_not_retroactive.1 ⟨0, 0⟩ 0 70000000000 70000000100 100 (by decide)
  · exact recalibration_not_retroactive.2 ⟨0, 0⟩ _ _

/-! ## C3: the recalibration trigger -/

/-- C3 counterexample for the exact 60-second reading: with
`lastupdate = 2 ^ 60 + 255` (a realistic `time.time_ns` value; its double
rounding goes up to `2 ^ 60 + 256`) and an event arriving with zero drift
exactly `60 s + 1 ns` of elapsed wall-clock time later, the elapsed time
exceeds 60 seconds but `calibratetime` does not recalibrate: the Python
comparison `wallclocktime > lastupdate + 6e10` promotes `lastupdate` to a
double, and the rounded threshold is 1 ns above the exact one. -/
theorem recal_trigger_float_boundary_counterexample :
    (1152921564606847232 : Int) - 1152921504606847231 = 60000000000 + 1 ∧
    triggersRecal ⟨0, 1152921504606847231⟩ 1152921564606847232 1152921564606847232 = false ∧
    (calibratetime ⟨0, 1152921504606847231⟩ 1152921564606847232 1152921564606847232 7 7).2 =
      ⟨0, 1152921504606847231⟩ := by
  refine ⟨by decide, by decide, ?_⟩
  simp [calibratetime]
  decide

/-- C3 (amended): processing an event recalibrates exactly when the
wall-clock reading exceeds `lastupdate + 6e10` evaluated in Python float
arithmetic (double-precision promotion of `lastupdate`, which for
realistic nanosecond timestamps can move the 60-second boundary by up to
a few hundred nanoseconds), or the absolute difference between the
wall-clock reading and the event's calibrated time exceeds 1 ms.  The
synthetic scenarios hold as stated: after 61 seconds with no drift the
next event triggers a recalibration (and exactly one — the state is
replaced once, from a single fresh pair of clock samples), and a drift
above 1 ms triggers one regardless of elapsed time. -/
theorem recalibration_trigger_characterization :
    (∀ st (raw : Nat) (wall fw fm : Int),
        (calibratetime st raw wall fw fm).2 =
          if triggersRecal st raw wall then ⟨fw - fm, fw⟩ else st) ∧
    (∀ st (raw : Nat) (wall : Int),
        triggersRecal st raw wall = true ↔
          wall > updateDeadline st.lastupdate ∨
          |wall - ((raw : Int) + st.clockoffset)| > DRIFT_THRESHOLD) ∧
    (∀ st (raw : Nat) (wall : Int), 0 ≤ st.lastupdate → st.lastupdate < 2 ^ 61 →
        wall = st.lastupdate + 61 * 10 ^ 9 → (raw : Int) + st.clockoffset = wall →
        triggersRecal st raw wall = true) ∧
    (∀ st (raw : Nat) (wall : Int),
        |wall - ((raw : Int) + st.clockoffset)| > DRIFT_THRESHOLD →
        triggersRecal st raw wall = true) := by
  refine ⟨?_, ?_, ?_, ?_⟩
  · intro st raw wall fw fm
    by_cases htrig : triggersRecal st raw wall = true
    · simp [calibratetime, htrig, calculateclockoffset]
    · simp only [Bool.not_eq_true] at htrig
      simp [calibratetime, htrig]
  · intro st raw wall
    simp [triggersRecal]
  · intro st raw wall h0 h1 hwall _
    have hdl := updateDeadline_lt st.lastupdate h0 h1
    simp only [triggersRecal, Bool.or_eq_true, decide_eq_true_eq]
    left
    omega
  · intro st raw wall hdrift
    simp only [triggersRecal, Bool.or_eq_true, decide_eq_true_eq]
    right
    exact hdrift

theorem recalibration_trigger_characterization_witness :
    ((calibratetime ⟨0, 0⟩ 61000000000 61000000000 5 2).2 =
        if triggersRecal ⟨0, 0⟩ 61000000000 61000000000 then ⟨3, 5⟩ else ⟨0, 0⟩) ∧
    triggersRecal ⟨0, 0⟩ 61000000000 61000000000 = true ∧
    triggersRecal ⟨0, 1152921504606847231⟩ 7 1152921504606850000 = true := by
  refine ⟨recalibration_trigger_characterization.1 ⟨0, 0⟩ 61000000000 61000000000 5 2, ?_, ?_⟩
  · exact recalibration_trigger_characterization.2.2.1 ⟨0, 0⟩ 61000000000 61000000000
      (by decide) (by decide) (by decide) (by decide)
  · exact recalibration_trigger_characterization.2.2.2 ⟨0, 1152921504606847231⟩ 7
      1152921504606850000 (by decide)

/-! ## C2: bytes used by the payload rendering -/

/-- An event whose payload holds a NUL byte in position 1 and whose
`byte_length` is the full payload capacity (4095 usable bytes of the
4096-byte buffer). -/
def evC2 : Event :=
  { rawtime := 0, cgid := 0, inode := 0, pidtgid := 0, nsid := 0, comm := [],
    buf := 65 :: 0 :: List.replicate 4094 66, len := 4095, etype := 0 }

/-- C2 counterexample: at the maximum payload capacity (`len = 4095`) with
an embedded NUL, the rendering does not use `byte_length` bytes — ctypes
reading of the `c_char` field `event.buf` stops at the first NUL, so
`repr(event.buf[:event.len])` renders a single byte here, not 4095. -/
theorem payload_rendering_embedded_nul_counterexample :
    evC2.len = 4095 ∧ evC2.buf.length = 4096 ∧ (renderedPayload evC2).length = 1 := by
  refine ⟨rfl, ?_, rfl⟩
  simp only [evC2, List.length_cons, List.length_replicate]

/-- C2 (amended): the payload rendering uses the first `byte_length` bytes
of the payload truncated at its first NUL byte (the ctypes `c_char` field
semantics): with `byte_length = 0` the rendering is always the empty
representation, never more than `byte_length` bytes are used, and exactly
`byte_length` bytes are used precisely when the first `byte_length` bytes
of the payload contain no NUL — a NUL embedded there makes the rendering
use strictly fewer than `byte_length` bytes. -/
theorem payload_rendering_uses_byte_length (e : Event) (hlen : e.len ≤ e.buf.length) :
    (e.len = 0 → renderedPayload e = []) ∧
    (renderedPayload e).length ≤ e.len ∧
    ((∀ b ∈ e.buf.take e.len, b ≠ 0) →
       renderedPayload e = e.buf.take e.len ∧ (renderedPayload e).length = e.len) ∧
    ((∃ b ∈ e.buf.take e.len, b = 0) → (renderedPayload e).length < e.len) ∧
    ((renderedPayload e).length = e.len ↔ ∀ b ∈ e.buf.take e.len, b ≠ 0) := by
  have hexact : (∀ b ∈ e.buf.take e.len, b ≠ 0) →
      renderedPayload e = e.buf.take e.len ∧ (renderedPayload e).length = e.len := by
    intro hnz
    have hp : ∀ b ∈ e.buf.take e.len, (fun b => decide (b ≠ 0)) b = true := by
      intro b hb
      simpa using hnz b hb
    have heqtake := take_takeWhile_eq_take (fun b => decide (b ≠ 0)) e.len e.buf hp
    have heq : renderedPayload e = e.buf.take e.len := by
      rw [renderedPayload, cCharValue]
      exact heqtake
    refine ⟨heq, ?_⟩
    rw [heq]
    exact List.length_take_of_le hlen
  have hnul : (∃ b ∈ e.buf.take e.len, b = 0) → (renderedPayload e).length < e.len := by
    rintro ⟨b, hb, hb0⟩
    have hlt := length_takeWhile_lt_of_mem (fun b => decide (b ≠ 0)) e.len e.buf b hb
      (by simp [hb0])
    rw [renderedPayload, cCharValue, List.length_take]
    omega
  refine ⟨?_, List.length_take_le _ _, hexact, hnul, ?_, ?_⟩
  · intro h0
    simp [renderedPayload, h0]
  · intro hlen_eq
    by_contra hnz
    push_neg at hnz
    have := hnul hnz
    omega
  · intro hnz
    exact (hexact hnz).2

theorem payload_rendering_uses_byte_length_witness :
    (Event.mk 0 0 0 0 0 [] [104, 105, 0] 2 0).len ≤
      (Event.mk 0 0 0 0 0 [] [104, 105, 0] 2 0).buf.length ∧
    (renderedPayload (Event.mk 0 0 0 0 0 [] [104, 105, 0] 2 0)).length ≤ 2 ∧
    (renderedPayload (Event.mk 0 0 0 0 0 [] [104, 105, 0] 2 0) = [104, 105] ∧
     (renderedPayload (Event.mk 0 0 0 0 0 [] [104, 105, 0] 2 0)).length = 2) ∧
    (Event.mk 0 0 0 0 0 [] [104, 0, 105] 3 0).len ≤
      (Event.mk 0 0 0 0 0 [] [104, 0, 105] 3 0).buf.length ∧
    (renderedPayload (Event.mk 0 0 0 0 0 [] [104, 0, 105] 3 0)).length < 3 ∧
    ¬ (renderedPayload (Event.mk 0 0 0 0 0 [] [104, 0, 105] 3 0)).length =
      (Event.mk 0 0 0 0 0 [] [104, 0, 105] 3 0).len := by
  have hA := payload_rendering_uses_byte_length (Event.mk 0 0 0 0 0 [] [104, 105, 0] 2 0)
    (by decide)
  have hB := payload_rendering_uses_byte_length (Event.mk 0 0 0 0 0 [] [104, 0, 105] 3 0)
    (by decide)
  have hBlt : (renderedPayload (Event.mk 0 0 0 0 0 [] [104, 0, 105] 3 0)).length < 3 :=
    hB.2.2.2.1 ⟨0, by decide, rfl⟩
  refine ⟨by decide, hA.2.1, by simpa using hA.2.2.1 (by decide), by decide, hBlt, ?_⟩
  intro heq
  exact absurd (hB.2.2.2.2.mp heq 0 (by decide)) (by decide)

/-! ## C1: absence of the self-exclusion filter -/

/-- Inode of the capture process's own output device in the scenario below
(what a startup-time exclusion resolution would have produced). -/
def exclusionInode : Nat := 42

/-- A record captured from the pipeline's own output device: its `inode`
equals `exclusionInode`. -/
def evSelf : Event :=
  { rawtime := 5, cgid := 1, inode := exclusionInode, pidtgid := 4295032839,
    nsid := 2, comm := [116, 116, 121, 0], buf := [104, 105, 0], len := 2, etype := 0 }

/-- C1 (evidence of the divergence): `handleevent` contains no inode check
at all — a record whose `inode` equals the capture process's own output
inode is calibrated, passed to the formatter and printed like any other
record, instead of being discarded before calibration. -/
theorem no_self_exclusion_filter :
    evSelf.inode = exclusionInode ∧
    (handleevent ⟨true, ⟨100, 0⟩, none, []⟩ evSelf 105 200 100).out.length = 1 := by
  constructor
  · rfl
  · decide

/-! ## C9: idempotent shutdown -/

/-- C9: shutdown requests are idempotent and do not disturb the record in
flight.  First conjunct: a second termination signal leaves the state
exactly as the first one did (no corruption).  Second conjunct: once the
loop is drained (`running` cleared, no record in flight), every further
action — more signals, more deliveries — leaves the state unchanged, so
draining happens exactly once.  Third conjunct: a record already decoded
when the signals arrive is still printed exactly once, and two signals
produce the same output as one. -/
theorem shutdown_idempotent :
    (∀ s : LoopState, stepAction (stepAction s .signal) .signal = stepAction s .signal) ∧
    (∀ s : LoopState, s.running = false → s.pending = none →
        ∀ acts, runActions s acts = s) ∧
    (∀ (s : LoopState) (p : Pending) (lines : List String), s.pending = some p →
        printevent p.event
          (calibratetime s.cal p.event.rawtime p.wallclocktime p.freshwall p.freshmono).1 =
          some lines →
        (runActions s [.signal, .signal, .finishEvent]).out = s.out ++ [lines] ∧
        (runActions s [.signal, .signal, .finishEvent]).out =
          (runActions s [.signal, .finishEvent]).out) := by
  refine ⟨?_, ?_, ?_⟩
  · intro s
    simp [stepAction]
  · intro s hrun hpend acts
    induction acts with
    | nil => simp [runActions]
    | cons a acts ih =>
        have hstep : stepAction s a = s := by
          cases a with
          | signal =>
              show { s with running := false } = s
              cases s
              simp_all
          | beginEvent e w fw fm => simp [stepAction, hrun]
          | finishEvent => simp [stepAction, hpend]
        show runActions (stepAction s a) acts = s
        rw [hstep]
        exact ih
  · intro s p lines hpend hprint
    constructor
    · show (stepAction (stepAction (stepAction s .signal) .signal) .finishEvent).out =
        s.out ++ [lines]
      simp [stepAction, hpend, hprint]
    · show (stepAction (stepAction (stepAction s .signal) .signal) .finishEvent).out =
        (stepAction (stepAction s .signal) .finishEvent).out
      simp [stepAction, hpend, hprint]

theorem shutdown_idempotent_witness :
    (stepAction (stepAction ⟨true, ⟨100, 0⟩, none, []⟩ .signal) .signal =
       stepAction ⟨true, ⟨100, 0⟩, none, []⟩ .signal) ∧
    runActions ⟨false, ⟨100, 0⟩, none, []⟩ [.signal, .beginEvent evSelf 105 200 100] =
      ⟨false, ⟨100, 0⟩, none, []⟩ ∧
    ((runActions ⟨true, ⟨100, 0⟩, some ⟨evSelf, 105, 200, 100⟩, []⟩
        [.signal, .signal, .finishEvent]).out =
      [] ++ [(printevent evSelf 105).getD []] ∧
     (runActions ⟨true, ⟨100, 0⟩, some ⟨evSelf, 105, 200, 100⟩, []⟩
        [.signal, .signal, .finishEvent]).out =
      (runActions ⟨true, ⟨100, 0⟩, some ⟨evSelf, 105, 200, 100⟩, []⟩
        [.signal, .finishEvent]).out) := by
  refine ⟨shutdown_idempotent.1 ⟨true, ⟨100, 0⟩, none, []⟩, ?_, ?_⟩
  · exact shutdown_idempotent.2.1 ⟨false, ⟨100, 0⟩, none, []⟩ rfl rfl
      [.signal, .beginEvent evSelf 105 200 100]
  · exact shutdown_idempotent.2.2 ⟨true, ⟨100, 0⟩, some ⟨evSelf, 105, 200, 100⟩, []⟩
      ⟨evSelf, 105, 200, 100⟩ ((printevent evSelf 105).getD []) rfl (by decide)

/-! ## C7: shape of the formatter output -/

/-- A string is one physical line of output: none of its characters is the
newline character (code point 10). -/
def noNewlineIn (s : String) : Prop := ∀ c ∈ s.data, c.toNat ≠ 10

instance (s : String) : Decidable (noNewlineIn s) :=
  inferInstanceAs (Decidable (∀ c ∈ s.data, c.toNat ≠ 10))

theorem noNewlineIn_append {s t : String} (hs : noNewlineIn s) (ht : noNewlineIn t) :
    noNewlineIn (s ++ t) := by
  intro c hc
  rw [String.data_append] at hc
  rcases List.mem_append.mp hc with h | h
  · exact hs c h
  · exact ht c h

theorem toNat_charOfNat_ne_ten (m : Nat) (h : m ≠ 10) : (Char.ofNat m).toNat ≠ 10 := by
  unfold Char.ofNat
  split
  · next hv =>
      have hval : (Char.ofNatAux m hv).toNat = m := rfl
      rw [hval]
      exact h
  · decide

theorem digitChar_toNat_ne_ten (n : Nat) : (Nat.digitChar n).toNat ≠ 10 := by
  rcases Nat.lt_or_ge n 16 with h16 | h16
  · interval_cases n <;> decide
  · have hstar : Nat.digitChar n = Char.ofNat 42 := by
      unfold Nat.digitChar
      repeat rw [if_neg (by omega)]
    rw [hstar]
    decide

theorem toDigitsCore_toNat_ne_ten (b : Nat) :
    ∀ (fuel n : Nat) (ds : List Char), (∀ c ∈ ds, c.toNat ≠ 10) →
      ∀ c ∈ Nat.toDigitsCore b fuel n ds, c.toNat ≠ 10 := by
  intro fuel
  induction fuel with
  | zero =>
      intro n ds hds
      simpa [Nat.toDigitsCore] using hds
  | succ fuel ih =>
      intro n ds hds
      have hcons : ∀ c ∈ Nat.digitChar (n % b) :: ds, c.toNat ≠ 10 := by
        intro c hc
        rcases List.mem_cons.mp hc with h | h
        · rw [h]; exact digitChar_toNat_ne_ten _
        · exact hds c h
      simp only [Nat.toDigitsCore]
      split
      · exact hcons
      · exact ih (n / b) _ hcons

theorem noNewlineIn_natToString (n : Nat) : noNewlineIn (toString n) := by
  intro c hc
  exact toDigitsCore_toNat_ne_ten 10 (n + 1) n [] (by simp) c hc

theorem noNewlineIn_intToString (i : Int) : noNewlineIn (toString i) := by
  cases i with
  | ofNat m => exact noNewlineIn_natToString m
  | negSucc m =>
      exact noNewlineIn_append (s := "-") (by decide) (noNewlineIn_natToString (m + 1))

theorem pyReprQuote_cases (bs : List Nat) : pyReprQuote bs = 34 ∨ pyReprQuote bs = 39 := by
  unfold pyReprQuote
  split
  · exact Or.inl rfl
  · exact Or.inr rfl

theorem hexDigitChar_toNat_ne_ten (n : Nat) : (hexDigitChar n).toNat ≠ 10 := by
  unfold hexDigitChar
  split
  · exact toNat_charOfNat_ne_ten _ (by omega)
  · next h =>
      exact toNat_charOfNat_ne_ten _ (by omega)

theorem pyEscapeByte_toNat_ne_ten (q b : Nat) (hq : q = 34 ∨ q = 39) :
    ∀ c ∈ pyEscapeByte q b, c.toNat ≠ 10 := by
  intro c hc
  unfold pyEscapeByte at hc
  split at hc
  · rename_i hb
    have hb' : b = q ∨ b = 92 := by
      rcases Bool.or_eq_true_iff.mp hb with h1 | h1
      · exact Or.inl (of_decide_eq_true h1)
      · exact Or.inr (of_decide_eq_true h1)
    have hbne : b ≠ 10 := by omega
    simp only [List.mem_cons, List.not_mem_nil, or_false] at hc
    rcases hc with h | h
    · rw [h]; decide
    · rw [h]; exact toNat_charOfNat_ne_ten b hbne
  · split at hc
    · simp only [List.mem_cons, List.not_mem_nil, or_false] at hc
      rcases hc with h | h <;> (rw [h]; decide)
    · split at hc
      · simp only [List.mem_cons, List.not_mem_nil, or_false] at hc
        rcases hc with h | h <;> (rw [h]; decide)
      · split at hc
        · simp only [List.mem_cons, List.not_mem_nil, or_false] at hc
          rcases hc with h | h <;> (rw [h]; decide)
        · split at hc
          · simp only [List.mem_cons, List.not_mem_nil, or_false] at hc
            rcases hc with h | h | h | h
            · rw [h]; decide
            · rw [h]; decide
            · rw [h]; exact hexDigitChar_toNat_ne_ten _
            · rw [h]; exact hexDigitChar_toNat_ne_ten _
          · rename_i h5
            have hb10 : b ≠ 10 := by
              have h5' : ¬(b < 32 ∨ 127 ≤ b) := by simpa using h5
              omega
            simp only [List.mem_cons, List.not_mem_nil, or_false] at hc
            rw [hc]
            exact toNat_charOfNat_ne_ten b hb10

theorem noNewlineIn_pyReprBytes (bs : List Nat) : noNewlineIn (pyReprBytes bs) := by
  intro c hc
  have hq := pyReprQuote_cases bs
  have hq10 : pyReprQuote bs ≠ 10 := by rcases hq with h | h <;> simp [h]
  unfold pyReprBytes at hc
  simp only [List.mem_append, List.mem_cons, List.not_mem_nil, or_false] at hc
  rcases hc with ((h | h) | h) | h
  · rw [h]; decide
  · rw [h]; exact toNat_charOfNat_ne_ten _ hq10
  · rcases List.mem_flatten.mp h with ⟨l, hl, hcl⟩
    rcases List.mem_map.mp hl with ⟨b, _, hb⟩
    rw [← hb] at hcl
    exact pyEscapeByte_toNat_ne_ten _ b hq c hcl
  · rw [h]; exact toNat_charOfNat_ne_ten _ hq10

theorem noNewlineIn_headerLine (e : Event) (d : String) (t : Int)
    (hd : noNewlineIn d) : noNewlineIn (headerLine e d t) := by
  rw [headerLine]
  generalize hg : pyReprBytes (cCharValue e.comm) = cs
  have hcs : noNewlineIn cs := by rw [← hg]; exact noNewlineIn_pyReprBytes _
  repeat' apply noNewlineIn_append
  all_goals
    first
    | exact hd
    | exact hcs
    | exact noNewlineIn_natToString _
    | exact noNewlineIn_intToString _
    | decide

/-- C7: for every processed record with a valid direction, the formatter
emits exactly two strings, each a single physical line (no embedded
newline: every newline byte in the command name or payload is escaped),
the first being the header with its fields in the fixed source order —
direction, pid, tid, time, rawtime, cgid, inode, pidtgid, nsid, comm,
len — with the direction one of OUTPUT or INPUT, the calibrated time and
the raw monotonic time both present, and the second being the escaped
payload representation. -/
theorem formatter_two_lines_fixed_order (e : Event) (t : Int)
    (hty : e.etype = 0 ∨ e.etype = 1) :
    (directionOf e = "OUTPUT" ∨ directionOf e = "INPUT") ∧
    printevent e t =
      some ["<" ++ directionOf e ++
            " pid=" ++ toString (pidOf e.pidtgid) ++
            " tid=" ++ toString (tidOf e.pidtgid) ++
            " time=" ++ toString t ++
            " rawtime=" ++ toString e.rawtime ++
            " cgid=" ++ toString e.cgid ++
            " inode=" ++ toString e.inode ++
            " pidtgid=" ++ toString e.pidtgid ++
            " nsid=" ++ toString e.nsid ++
            " comm=" ++ pyReprBytes (cCharValue e.comm) ++
            " len=" ++ toString e.len ++ ">",
            pyReprBytes (renderedPayload e)] ∧
    (∀ line ∈ (printevent e t).getD [], noNewlineIn line) := by
  have hpy : pyIndex EVENT_TYPES e.etype = some (directionOf e) ∧
      (directionOf e = "OUTPUT" ∨ directionOf e = "INPUT") := by
    rcases hty with h | h <;> rw [directionOf, h] <;> exact ⟨rfl, by decide⟩
  have hprint : printevent e t =
      some [headerLine e (directionOf e) t, pyReprBytes (renderedPayload e)] := by
    rw [printevent, hpy.1]
  have hdir : noNewlineIn (directionOf e) := by
    rcases hpy.2 with h | h <;> rw [h] <;> decide
  refine ⟨hpy.2, by rw [hprint]; rfl, ?_⟩
  intro line hline
  rw [hprint] at hline
  simp only [Option.getD_some, List.mem_cons, List.not_mem_nil, or_false] at hline
  rcases hline with h | h
  · rw [h]
    exact noNewlineIn_headerLine e _ t hdir
  · rw [h]
    exact noNewlineIn_pyReprBytes _

/-- A concrete valid input record (direction INPUT) for the formatter. -/
def evW7 : Event :=
  { rawtime := 8, cgid := 2, inode := 9, pidtgid := 4295032839, nsid := 3,
    comm := [98, 97, 115, 104, 0], buf := [104, 10, 0], len := 2, etype := 1 }

theorem formatter_two_lines_fixed_order_witness :
    (evW7.etype = 0 ∨ evW7.etype = 1) ∧
    (directionOf evW7 = "OUTPUT" ∨ directionOf evW7 = "INPUT") ∧
    noNewlineIn (headerLine evW7 (directionOf evW7) 3) ∧
    noNewlineIn (pyReprBytes (renderedPayload evW7)) ∧
    (printevent evW7 3).isSome = true := by
  have h := formatter_two_lines_fixed_order evW7 3 (Or.inr rfl)
  refine ⟨Or.inr rfl, h.1, ?_, ?_, ?_⟩
  · exact h.2.2 _ (by rw [h.2.1]; exact List.mem_cons_self _ _)
  · exact h.2.2 _ (by rw [h.2.1]; exact List.mem_cons_of_mem _ (List.mem_cons_self _ _))
  · rw [h.2.1]; rfl

/-! ## C8: the end-to-end OUTPUT scenario -/

/-- The record of the end-to-end scenario: `direction = OUTPUT`,
`pidtgid = (4242 << 32) | 7`, `comm = "bash"`, `payload = "ls\n"`,
`byte_length = 3`, a non-excluded inode.  `18219251269639` is
`(4242 <<< 32) ||| 7`. -/
def evC8 : Event :=
  { rawtime := 990, cgid := 3, inode := 5, pidtgid := 18219251269639, nsid := 11,
    comm := [98, 97, 115, 104] ++ List.replicate 12 0,
    buf := [108, 115, 10] ++ List.replicate 4093 0, len := 3, etype := 0 }

/-- The single-quote character as a string. -/
def sq : String := String.singleton (Char.ofNat 39)

/-- Naive substring scan over character lists (structurally recursive, so
concrete instances reduce in the kernel). -/
def containsSub (hay needle : List Char) : Bool :=
  needle.isPrefixOf hay ||
    match hay with
    | [] => false
    | _ :: t => containsSub t needle

/-- C8 counterexample: the produced header does render the scenario record,
but no emitted line contains the substring `comm=bash` — an f-string
renders the ctypes `comm` bytes as `b` followed by a quoted form, so the
header contains `comm=b` and then the quoted `bash`. -/
theorem endtoend_comm_rendering_counterexample :
    (printevent evC8 1000).isSome = true ∧
    ((printevent evC8 1000).getD []).all
      (fun s => !(containsSub s.data (("comm=bash").data))) = true := by decide

/-- C8 (amended): the scenario record produces exactly one header line
`<OUTPUT pid=4242 tid=7 ... comm=b` + quote + `bash` + quote + ` len=3>`
(the command name is rendered as a Python bytes repr, not bare), followed
by the escaped representation of the bytes of `ls\n` (with the newline
escaped as backslash-n inside the bytes repr). -/
theorem endtoend_scenario_rendering :
    printevent evC8 1000 =
      some ["<OUTPUT pid=4242 tid=7 time=1000 rawtime=990 cgid=3 inode=5 pidtgid=18219251269639 nsid=11 comm=b"
              ++ sq ++ "bash" ++ sq ++ " len=3>",
            "b" ++ sq ++ "ls\\n" ++ sq] := by decide

/-! ## C10: events submitted by the probes are safe to format -/

/-- C10: every event record actually submitted by either kernel probe has
`len` at most 4095 (the payload capacity minus the implicit terminator)
and `etype` exactly 1 (INPUT) for the write probe and exactly 0 (OUTPUT)
for the receive probe; consequently `EVENT_TYPES[event.etype]` is in
range, the formatter succeeds on every submitted record, and the payload
slice uses at most `len` bytes. -/
theorem submitted_events_safe :
    (∀ (a : TtyWriteArgs) (e : Event) (t : Int), kprobe__tty_write a = some e →
        e.len ≤ 4095 ∧ e.etype = 1 ∧ (printevent e t).isSome = true ∧
        (renderedPayload e).length ≤ e.len) ∧
    (∀ (a : ReceiveArgs) (e : Event) (t : Int),
        kprobe__n_tty_receive_buf_common a = some e →
        e.len ≤ 4095 ∧ e.etype = 0 ∧ (printevent e t).isSome = true ∧
        (renderedPayload e).length ≤ e.len) := by
  have hprint : ∀ (e : Event) (t : Int), e.etype = 0 ∨ e.etype = 1 →
      (printevent e t).isSome = true := by
    intro e t hty
    rcases hty with h | h <;>
      · rw [printevent]
        rw [h]
        rfl
  constructor
  · intro a e t hsub
    rw [kprobe__tty_write] at hsub
    dsimp only at hsub
    repeat' split at hsub
    all_goals
      first
      | exact Option.noConfusion hsub
      | (have he := (Option.some_inj.mp hsub).symm
         subst he
         refine ⟨?_, rfl, hprint _ t (Or.inr rfl), List.length_take_le _ _⟩
         try dsimp only
         simp only [PAGE_SIZE, not_or] at *
         omega)
  · intro a e t hsub
    rw [kprobe__n_tty_receive_buf_common] at hsub
    dsimp only at hsub
    repeat' split at hsub
    all_goals
      first
      | exact Option.noConfusion hsub
      | (have he := (Option.some_inj.mp hsub).symm
         subst he
         refine ⟨?_, rfl, hprint _ t (Or.inl rfl), List.length_take_le _ _⟩
         try dsimp only
         simp only [PAGE_SIZE, not_or] at *
         omega)

/-- Concrete write-probe input: an `ITER_UBUF` write of one byte. -/
def aW10 : TtyWriteArgs :=
  { iter_type := ITER_UBUF, data_source := WRITE, bufNull := false, count := 1,
    payload := [104], readOk := true, reserveOk := true, rawtime := 4, cgid := 1,
    inode := 6, pidtgid := 4295032839, nsid := 2, comm := [115, 104, 0],
    stale := [7, 7, 7] }

/-- Concrete receive-probe input: two bytes delivered to the TTY. -/
def aR10 : ReceiveArgs :=
  { cpNull := false, count := 2, hasFile := true, fileInode := 6,
    payload := [104, 105], readOk := true, reserveOk := true, rawtime := 4,
    cgid := 1, pidtgid := 4295032839, nsid := 2, comm := [115, 104, 0],
    stale := [7, 7, 7, 7] }

theorem submitted_events_safe_witness :
    ((kprobe__tty_write aW10).isSome = true ∧
     (kprobe__n_tty_receive_buf_common aR10).isSome = true) ∧
    (((kprobe__tty_write aW10).getD evC8).len ≤ 4095 ∧
     ((kprobe__tty_write aW10).getD evC8).etype = 1 ∧
     (printevent ((kprobe__tty_write aW10).getD evC8) 9).isSome = true ∧
     (renderedPayload ((kprobe__tty_write aW10).getD evC8)).length ≤
       ((kprobe__tty_write aW10).getD evC8).len) ∧
    (((kprobe__n_tty_receive_buf_common aR10).getD evC8).len ≤ 4095 ∧
     ((kprobe__n_tty_receive_buf_common aR10).getD evC8).etype = 0 ∧
     (printevent ((kprobe__n_tty_receive_buf_common aR10).getD evC8) 9).isSome = true ∧
     (renderedPayload ((kprobe__n_tty_receive_buf_common aR10).getD evC8)).length ≤
       ((kprobe__n_tty_receive_buf_common aR10).getD evC8).len) :=
  ⟨⟨rfl, rfl⟩,
   submitted_events_safe.1 aW10 ((kprobe__tty_write aW10).getD evC8) 9 rfl,
   submitted_events_safe.2 aR10 ((kprobe__n_tty_receive_buf_common aR10).getD evC8) 9 rfl⟩

end Parrotty
